import Mathlib

/-!
Verification of the allele-counting engine of scCNVSim
(src/sccnvsim/alignments/afc/core.py and src/sccnvsim/utils/sam.py).

The Python source is shallowly embedded: pure functions become Lean
functions, in-place mutation of the counting machines becomes explicit
state passing, and the early `return` / `raise` control flow becomes
Except values.  The two counting-machine modules (mcount.py, fcount.py)
and the configuration module (config.py) are not part of the provided
sources; the embedding is parametric in their interfaces, and where a
claim needs their behaviour it is modelled from the specification and
marked as such.
-/

namespace AFC

attribute [local semireducible] Rat.mul Rat.inv Rat.add Rat.sub

/-- BAM flag bit for a paired read (sam.py, `BAM_FPAIRED = 1`). -/
def BAM_FPAIRED : Nat := 1

/-- BAM flag bit for a proper pair (sam.py, `BAM_FPROPER_PAIR = 2`). -/
def BAM_FPROPER_PAIR : Nat := 2

/-- An aligned read, restricted to the attributes the counting core
consults: mapping quality, flag bits, the set of optional tags it
carries, and the reference positions it aligns to. -/
structure Read where
  mapq : Nat
  flag : Nat
  tags : List String
  positions : List Int
deriving DecidableEq, Repr

/-- Embedding of pysam `read.has_tag(tag)`. -/
def Read.has_tag (r : Read) (t : String) : Bool :=
  r.tags.contains t

/-- The configuration fields the counting core consumes (config.py is not
under src/; the fields and their meanings are exactly those the source
reads: min_mapq, excl_flag, incl_flag, no_orphan, cell_tag, umi_tag,
min_len, min_count, min_maf, no_dup_hap, samples).  A tag option of
`none` is the Python falsy value (check disabled); the float `min_maf`
is modelled as a rational. -/
structure Config where
  min_mapq : Nat
  excl_flag : Nat
  incl_flag : Nat
  no_orphan : Bool
  cell_tag : Option String
  umi_tag : Option String
  min_len : Nat
  min_count : Nat
  min_maf : Rat
  no_dup_hap : Bool
  samples : List String

/-- Modelled from the spec: `conf.use_barcodes()` (config.py is not under
src/) is true exactly in barcode mode, i.e. when a cell-barcode tag name
is configured. -/
def Config.use_barcodes (c : Config) : Bool :=
  c.cell_tag.isSome

/-- Python truthiness of `tag and not read.has_tag(tag)`: the tag check
is enabled (tag configured) and the read lacks the tag. -/
def tag_missing (read : Read) (tag : Option String) : Bool :=
  match tag with
  | none => false
  | some t => ! read.has_tag t

/-- Embedding of `check_read(read, conf)` from core.py (the copy in
sam.py is textually identical). -/
def check_read (read : Read) (conf : Config) : Int :=
  if read.mapq < conf.min_mapq then -2
  else if conf.excl_flag ≠ 0 ∧ read.flag &&& conf.excl_flag ≠ 0 then -3
  else if conf.incl_flag ≠ 0 ∧ ¬ (read.flag &&& conf.incl_flag ≠ 0) then -4
  else if conf.no_orphan ∧ read.flag &&& BAM_FPAIRED ≠ 0 ∧
      ¬ (read.flag &&& BAM_FPROPER_PAIR ≠ 0) then -5
  else if tag_missing read conf.cell_tag then -11
  else if tag_missing read conf.umi_tag then -12
  else if read.positions.length < conf.min_len then -21
  else 0

/-- A single SNP: chromosome, 1-based position, reference and
alternative bases. -/
structure SNP where
  chrom : String
  pos : Int
  ref : Char
  alt : Char
deriving DecidableEq, Repr

/-- A region (feature): name, half-open interval and its SNP list. -/
structure Region where
  chrom : String
  start : Int
  end_ : Int
  name : String
  snp_list : List SNP
deriving DecidableEq, Repr

/-- Result of one underlying `sam.fetch` call: an exception, or an
iterator holding a finite list of reads (the iterator is Python-falsy
exactly when the list is empty). -/
inductive FetchRes where
  | err : FetchRes
  | ok : List Read → FetchRes
deriving DecidableEq, Repr

/-- An opened alignment file, reduced to its fetch behaviour: chromosome
name, optional 0-based start, optional end. -/
structure Sam where
  fetch : String → Option Int → Option Int → FetchRes

/-- The alternate chromosome naming tried by `sam_fetch`
(sam.py line 142): strip a leading "chr", otherwise prepend it. -/
def alt_chrom (chrom : String) : String :=
  if chrom.startsWith "chr" then (chrom.drop 3) else "chr" ++ chrom

/-- Embedding of `sam_fetch(sam, chrom, start, end)` from sam.py: the
1-based inclusive start is shifted to 0-based, the fetch is attempted
with the given name, and on an exception or an empty iterator it is
retried once with the alternate "chr"-prefix form. -/
def sam_fetch (sam : Sam) (chrom : String) (start end_ : Option Int) :
    Option (List Read) :=
  let start := start.map (fun x => x - 1)
  let retry : Option (List Read) :=
    match sam.fetch (alt_chrom chrom) start end_ with
    | FetchRes.err => none
    | FetchRes.ok itr => if itr ≠ [] then some itr else none
  match sam.fetch chrom start end_ with
  | FetchRes.err => retry
  | FetchRes.ok itr => if itr ≠ [] then some itr else retry

/-- Embedding of the SNP-level QC gate at the end of `plp_snp`
(core.py lines 203-211): `tcount` is the finalized per-base total count
vector, `ref_idx`/`alt_idx` the base indices of the SNP's ref and alt
bases. -/
def snp_qc_gate (tcount : List Nat) (ref_idx alt_idx : Nat) (conf : Config) :
    Int :=
  let snp_cnt := tcount.sum
  if snp_cnt < conf.min_count then 3
  else
    let snp_ref_cnt := tcount.getD ref_idx 0
    let snp_alt_cnt := tcount.getD alt_idx 0
    let snp_minor_cnt := min snp_ref_cnt snp_alt_cnt
    if (snp_minor_cnt : Rat) < (snp_cnt : Rat) * conf.min_maf then 5
    else 0

/-- The interface of the per-SNP counting machine `mcount.MCount`
(mcount.py is not under src/; the embedding is parametric in the state
type and the operations the visible source invokes: `add_snp`,
`push_read` with an optional explicit sample, `stat`, and the finalized
`tcount` vector with its `base_idx` map). -/
structure SnpMachine (σ : Type) where
  add_snp : σ → SNP → Int × σ
  push_read : σ → Read → Option String → Int × σ
  stat : σ → Int × σ
  tcount : σ → List Nat
  base_idx : σ → Char → Nat

/-- Embedding of the inner read loop of `plp_snp` (core.py lines
189-200): unqualified reads are skipped, a `push_read` return of -1
aborts with the fatal code, any other negative return drops the read and
continues.  The error value carries the machine state at the abort. -/
def plp_reads {σ : Type} (Ms : SnpMachine σ) (conf : Config)
    (samp : Option String) : List Read → σ → Except σ σ
  | [], m => Except.ok m
  | r :: rs, m =>
    if check_read r conf < 0 then plp_reads Ms conf samp rs m
    else
      let p := Ms.push_read m r samp
      if p.1 < 0 then
        if p.1 = -1 then Except.error p.2
        else plp_reads Ms conf samp rs p.2
      else plp_reads Ms conf samp rs p.2

/-- Embedding of the outer loop of `plp_snp` over the alignment files
(core.py lines 185-200), with the enumeration index selecting the
explicit sample label in sample mode. -/
def plp_sams {σ : Type} (Ms : SnpMachine σ) (conf : Config) (snp : SNP) :
    List Sam → Nat → σ → Except σ σ
  | [], _, m => Except.ok m
  | sam :: rest, idx, m =>
    match sam_fetch sam snp.chrom (some snp.pos) (some snp.pos) with
    | none => plp_sams Ms conf snp rest (idx + 1) m
    | some itr =>
      let samp : Option String :=
        if conf.use_barcodes then none else some (conf.samples.getD idx "")
      match plp_reads Ms conf samp itr m with
      | Except.error m' => Except.error m'
      | Except.ok m' => plp_sams Ms conf snp rest (idx + 1) m'

/-- Embedding of `plp_snp(snp, sam_list, mcnt, conf)` from core.py:
returns 0 on success, a negative code on error (-3 add_snp failure,
-5 fatal push_read, -7 stat failure), a positive code when the SNP is
filtered by the QC gate, together with the machine state. -/
def plp_snp {σ : Type} (Ms : SnpMachine σ) (snp : SNP) (sam_list : List Sam)
    (mcnt : σ) (conf : Config) : Int × σ :=
  let a := Ms.add_snp mcnt snp
  if a.1 < 0 then (-3, a.2)
  else
    match plp_sams Ms conf snp sam_list 0 a.2 with
    | Except.error m => (-5, m)
    | Except.ok m =>
      let s := Ms.stat m
      if s.1 < 0 then (-7, s.2)
      else
        (snp_qc_gate (Ms.tcount s.2) (Ms.base_idx s.2 snp.ref)
          (Ms.base_idx s.2 snp.alt) conf, s.2)

/-- The per-unit allele counters the feature machine exposes for one
sample: `allele_cnt[0]` reference-supporting, `allele_cnt[1]`
alternative-supporting, `allele_cnt[2]` duplicate-haplotype,
`allele_cnt[-1]` other-base-supporting (the indices read by fc_fet1,
core.py lines 152-158).  Counters are naturals: allele counters are
non-negative. -/
structure SCount where
  ref_cnt : Nat
  alt_cnt : Nat
  dup_cnt : Nat
  oth_cnt : Nat
deriving DecidableEq, Repr

/-- Lookup matching the Python dict access `scnt.allele_cnt[i]`. -/
def SCount.allele_cnt (s : SCount) (i : Int) : Nat :=
  if i = 0 then s.ref_cnt
  else if i = 1 then s.alt_cnt
  else if i = 2 then s.dup_cnt
  else if i = -1 then s.oth_cnt
  else 0

/-- The all-zero counter record. -/
def SCount.zero : SCount := ⟨0, 0, 0, 0⟩

/-- Componentwise sum of two counter records. -/
def SCount.add (x y : SCount) : SCount :=
  ⟨x.ref_cnt + y.ref_cnt, x.alt_cnt + y.alt_cnt,
   x.dup_cnt + y.dup_cnt, x.oth_cnt + y.oth_cnt⟩

/-- The interface of the per-feature counting machine `fcount.MCount`
(fcount.py is not under src/; the embedding is parametric in the state
type and the operations the visible source invokes: `add_region`,
`push_snp` fed with the finalized SNP-machine state, `stat`, and the
finalized per-unit `cell_cnt` map). -/
structure FeatMachine (τ σ : Type) where
  add_region : τ → Region → τ
  push_snp : τ → σ → Int × τ
  stat : τ → Int × τ
  cell_cnt : τ → List (String × SCount)

/-- Embedding of the SNP loop of `fc_fet1` (core.py lines 134-144): a
negative `plp_snp` return aborts the region with -3, a positive return
skips the filtered SNP, and on 0 the tally is pushed into the feature
machine (a negative `push_snp` aborts with -5). -/
def fc_fet1_loop {σ τ : Type} (Ms : SnpMachine σ) (Mf : FeatMachine τ σ)
    (sam_list : List Sam) (conf : Config) :
    List SNP → σ → τ → Except Int (σ × τ)
  | [], sm, fm => Except.ok (sm, fm)
  | snp :: snps, sm, fm =>
    let r := plp_snp Ms snp sam_list sm conf
    if r.1 < 0 then Except.error (-3)
    else if 0 < r.1 then fc_fet1_loop Ms Mf sam_list conf snps r.2 fm
    else
      let p := Mf.push_snp fm r.2
      if p.1 < 0 then Except.error (-5)
      else fc_fet1_loop Ms Mf sam_list conf snps r.2 p.2

/-- Pointwise update of a dict modelled as a function (Python
`d[smp] = v`). -/
def upd (f : String → Nat) (k : String) (v : Nat) : String → Nat :=
  fun s => if s = k then v else f s

/-- Embedding of the read-off loop of `fc_fet1` (core.py lines 152-158):
fold the finalized `cell_cnt` items into the three per-sample dicts,
applying the duplicate-haplotype policy when it is not disabled. -/
def fc_fet1_fold (no_dup_hap : Bool) :
    List (String × SCount) →
    (String → Nat) × (String → Nat) × (String → Nat) →
    (String → Nat) × (String → Nat) × (String → Nat)
  | [], acc => acc
  | (smp, scnt) :: rest, (a, d, o) =>
    let a' := upd a smp (scnt.allele_cnt 1 +
      (if no_dup_hap then 0 else scnt.allele_cnt 2))
    let d' := upd d smp (scnt.allele_cnt 0 + scnt.allele_cnt 1 +
      (if no_dup_hap then 0 else scnt.allele_cnt 2 * 2))
    let o' := upd o smp (scnt.allele_cnt (-1))
    fc_fet1_fold no_dup_hap rest (a', d', o')

/-- Result of `fc_fet1`: the return code, the threaded machine states,
and on success the three per-sample count dicts (`none` on error, as the
Python `(ret, None, None, None)`). -/
structure Fet1Res (σ τ : Type) where
  ret : Int
  sm : σ
  fm : τ
  cnts : Option ((String → Nat) × (String → Nat) × (String → Nat))

/-- The region-level alt count of one sample, when present. -/
def Fet1Res.alt_at {σ τ : Type} (r : Fet1Res σ τ) (smp : String) : Option Nat :=
  r.cnts.map (fun c => c.1 smp)

/-- The region-level dp count of one sample, when present. -/
def Fet1Res.dp_at {σ τ : Type} (r : Fet1Res σ τ) (smp : String) : Option Nat :=
  r.cnts.map (fun c => c.2.1 smp)

/-- The region-level oth count of one sample, when present. -/
def Fet1Res.oth_at {σ τ : Type} (r : Fet1Res σ τ) (smp : String) : Option Nat :=
  r.cnts.map (fun c => c.2.2 smp)

/-- Embedding of `fc_fet1(reg, sam_list, snp_mcnt, mcnt, conf)` from
core.py: run the SNP loop, finalize the feature machine, and read off
the per-sample counts (dicts initialized to zero for every configured
sample). -/
def fc_fet1 {σ τ : Type} (Ms : SnpMachine σ) (Mf : FeatMachine τ σ)
    (reg : Region) (sam_list : List Sam) (snp_mcnt : σ) (mcnt : τ)
    (conf : Config) : Fet1Res σ τ :=
  match fc_fet1_loop Ms Mf sam_list conf reg.snp_list snp_mcnt mcnt with
  | Except.error e => ⟨e, snp_mcnt, mcnt, none⟩
  | Except.ok (sm, fm) =>
    let s := Mf.stat fm
    if s.1 < 0 then ⟨-7, sm, s.2, none⟩
    else
      ⟨0, sm, s.2,
        some (fc_fet1_fold conf.no_dup_hap (Mf.cell_cnt s.2)
          (fun _ => 0, fun _ => 0, fun _ => 0))⟩

/-- The region-metadata line written by `fc_features` (core.py lines
74-76): chrom, tab, 0-based start, tab, inclusive end (`end - 1`), tab,
name, newline. -/
def reg_line (reg : Region) : String :=
  reg.chrom ++ "\t" ++ toString reg.start ++ "\t" ++
    toString (reg.end_ - 1) ++ "\t" ++ reg.name ++ "\n"

/-- A sparse count record: (region index, sample index, count), both
indices 1-based.  Rendered on the stream as the tab-separated line
`"%d\t%d\t%d\n"`, see `cnt_line`. -/
abbrev CntRec := Nat × Nat × Nat

/-- The textual rendering of one sparse count record
(`"%d\t%d\t%d\n" % (reg_idx + 1, i + 1, nu)`, core.py lines 92-98). -/
def cnt_line (t : CntRec) : String :=
  toString t.1 ++ "\t" ++ toString t.2.1 ++ "\t" ++ toString t.2.2 ++ "\n"

/-- Embedding of the per-sample output loop of `fc_features` (core.py
lines 85-99): walk the configured samples with their enumeration index
`i`; a sample with `dp + oth <= 0` is skipped entirely; otherwise an AD
record is appended when `alt > 0`, a DP record when `dp > 0` and an OTH
record when `oth > 0`, each as `(reg_idx + 1, i + 1, count)`. -/
def emit_lines (reg_idx : Nat) (a d o : String → Nat) :
    Nat → List String → List CntRec × List CntRec × List CntRec
  | _, [] => ([], [], [])
  | i, smp :: rest =>
    let nu_ad := a smp
    let nu_dp := d smp
    let nu_oth := o smp
    if nu_dp + nu_oth ≤ 0 then emit_lines reg_idx a d o (i + 1) rest
    else
      let r := emit_lines reg_idx a d o (i + 1) rest
      ((if 0 < nu_ad then [(reg_idx + 1, i + 1, nu_ad)] else []) ++ r.1,
       (if 0 < nu_dp then [(reg_idx + 1, i + 1, nu_dp)] else []) ++ r.2.1,
       (if 0 < nu_oth then [(reg_idx + 1, i + 1, nu_oth)] else []) ++ r.2.2)

/-- The worker-visible state threaded through the region loop of
`fc_features`: the two counting-machine states, the four output streams
(region metadata as rendered lines, counts as sparse records), and the
per-worker record counters `nr_ad`, `nr_dp`, `nr_oth`. -/
structure WorkerState (σ τ : Type) where
  sm : σ
  fm : τ
  reg_stream : List String
  ad_stream : List CntRec
  dp_stream : List CntRec
  oth_stream : List CntRec
  nr_ad : Nat
  nr_dp : Nat
  nr_oth : Nat
deriving DecidableEq

/-- Embedding of one iteration of the region loop of `fc_features`
(core.py lines 67-104): reset the feature machine for the region, write
the region-metadata line, and when the region has SNPs run `fc_fet1`; a
negative return raises (Except.error carrying the state at the raise);
otherwise build the three record blocks, bump the record counters per
appended record, and write all three blocks to the streams only when the
DP or OTH block is nonempty. -/
def fc_features_step {σ τ : Type} (Ms : SnpMachine σ) (Mf : FeatMachine τ σ)
    (sam_list : List Sam) (conf : Config) (reg : Region) (reg_idx : Nat)
    (st : WorkerState σ τ) :
    Except (WorkerState σ τ) (WorkerState σ τ) :=
  let st1 : WorkerState σ τ :=
    { st with fm := Mf.add_region st.fm reg,
              reg_stream := st.reg_stream ++ [reg_line reg] }
  if reg.snp_list = [] then Except.ok st1
  else
    let r := fc_fet1 Ms Mf reg sam_list st1.sm st1.fm conf
    if r.ret < 0 then
      Except.error { st1 with sm := r.sm, fm := r.fm }
    else
      match r.cnts with
      | none => Except.ok { st1 with sm := r.sm, fm := r.fm }
      | some (a, d, o) =>
        let e := emit_lines reg_idx a d o 0 conf.samples
        let st2 : WorkerState σ τ :=
          { st1 with sm := r.sm, fm := r.fm,
                     nr_ad := st1.nr_ad + e.1.length,
                     nr_dp := st1.nr_dp + e.2.1.length,
                     nr_oth := st1.nr_oth + e.2.2.length }
        if e.2.1 ≠ [] ∨ e.2.2 ≠ [] then
          Except.ok { st2 with ad_stream := st2.ad_stream ++ e.1,
                               dp_stream := st2.dp_stream ++ e.2.1,
                               oth_stream := st2.oth_stream ++ e.2.2 }
        else Except.ok st2

/-- The region loop of `fc_features` over the worker's assigned region
list, with the running enumeration index. -/
def fc_features_loop {σ τ : Type} (Ms : SnpMachine σ) (Mf : FeatMachine τ σ)
    (sam_list : List Sam) (conf : Config) :
    List Region → Nat → WorkerState σ τ →
    Except (WorkerState σ τ) (WorkerState σ τ)
  | [], _, st => Except.ok st
  | reg :: regs, idx, st =>
    match fc_features_step Ms Mf sam_list conf reg idx st with
    | Except.error st' => Except.error st'
    | Except.ok st' => fc_features_loop Ms Mf sam_list conf regs (idx + 1) st'

/-- The initial worker state: freshly created machines, empty streams,
zero record counters. -/
def init_state {σ τ : Type} (sm : σ) (fm : τ) : WorkerState σ τ :=
  ⟨sm, fm, [], [], [], [], 0, 0, 0⟩

/-- Embedding of the counting part of `fc_features(thdata)` from
core.py: process the assigned region list in order from a fresh worker
state (file opening, pickling and progress logging are out of scope). -/
def fc_features {σ τ : Type} (Ms : SnpMachine σ) (Mf : FeatMachine τ σ)
    (sam_list : List Sam) (conf : Config) (reg_list : List Region)
    (sm : σ) (fm : τ) : Except (WorkerState σ τ) (WorkerState σ τ) :=
  fc_features_loop Ms Mf sam_list conf reg_list 0 (init_state sm fm)

/-- Modelled from the spec: the FeatureAggregator of §4.3 (fcount.py is
not under src/).  `add_region` resets the per-unit running totals to
zero, `push_snp` folds one QC-accepted tally's per-unit counters into
the running totals componentwise, `stat` finalizes, and `cell_cnt`
exposes one entry per configured unit.  The view `u` extracts the
finalized per-unit counters from the SNP-machine state. -/
def specFeatAgg {σ : Type} (u : σ → String → SCount) (samples : List String) :
    FeatMachine (String → SCount) σ where
  add_region := fun _ _ => fun _ => SCount.zero
  push_snp := fun fm s => (0, fun smp => (fm smp).add (u s smp))
  stat := fun fm => (0, fm)
  cell_cnt := fun fm => samples.map (fun smp => (smp, fm smp))

/-- Following the spec's words: the finalized SNP-machine states of the
QC-accepted SNPs of a region, in list order (a SNP is accepted when
`plp_snp` returns 0, skipped when it returns a positive filter code; a
negative return aborts the region, so nothing after it is accepted). -/
def accepted_tallies {σ : Type} (Ms : SnpMachine σ) (sam_list : List Sam)
    (conf : Config) : List SNP → σ → List σ
  | [], _ => []
  | snp :: snps, sm =>
    let r := plp_snp Ms snp sam_list sm conf
    if r.1 = 0 then r.2 :: accepted_tallies Ms sam_list conf snps r.2
    else if 0 < r.1 then accepted_tallies Ms sam_list conf snps r.2
    else []

/-- Componentwise sum of a list of counter records. -/
def tallySum (l : List SCount) : SCount :=
  l.foldr SCount.add SCount.zero

/-- Following the spec's words: the sparse triplets of one region for
one of the three matrices, built from a value map and a keep predicate
over the enumerated samples, each record `(reg_idx + 1, i + 1, value)`. -/
def sel_lines (reg_idx : Nat) (v : String → Nat) (keep : String → Bool) :
    Nat → List String → List CntRec
  | _, [] => []
  | i, smp :: rest =>
    (if keep smp then [(reg_idx + 1, i + 1, v smp)] else []) ++
      sel_lines reg_idx v keep (i + 1) rest

/-- A trivial SNP machine over the unit state, whose finalized totals
are the fixed vector `tc` (used to exercise the embedding on concrete
inputs): every operation succeeds, `base_idx` maps the reference base
to index 0 and anything else to index 1. -/
def trivSnpM (tc : List Nat) : SnpMachine Unit where
  add_snp := fun _ _ => (0, ())
  push_read := fun _ _ _ => (0, ())
  stat := fun _ => (0, ())
  tcount := fun _ => tc
  base_idx := fun _ c => if c = 'A' then 0 else 1

/-- A SNP machine whose `push_read` always reports the fatal state
corruption code -1 (used to exercise the fatal-error routing on a
concrete input). -/
def fatalSnpM : SnpMachine Unit where
  add_snp := fun _ _ => (0, ())
  push_read := fun _ _ _ => (-1, ())
  stat := fun _ => (0, ())
  tcount := fun _ => []
  base_idx := fun _ _ => 0

/-- A sam handle answering every fetch with one fixed read on "chr1" and
an exception elsewhere (used on concrete inputs). -/
def trivSam (r : Read) : Sam where
  fetch := fun chrom _ _ =>
    if chrom = "chr1" then FetchRes.ok [r] else FetchRes.err

/-- A concrete qualifying read used by the witnesses. -/
def read0 : Read := ⟨30, 0, [], [1, 2, 3]⟩

/-- A concrete configuration used by the witnesses: no flag filters, no
tag requirements, sample mode with the single sample "S1",
min_count 10, min_maf 1/5, duplicate-haplotype counting enabled. -/
def conf0 : Config :=
  ⟨20, 0, 0, false, none, none, 2, 10, (1 : Rat) / 5, false, ["S1"]⟩

/-- Spec-side qualification predicate: the conjunction of the seven
conditions of §4.1 under which a read qualifies. -/
def qualifies_spec (r : Read) (c : Config) : Prop :=
  c.min_mapq ≤ r.mapq ∧
  (c.excl_flag ≠ 0 → r.flag &&& c.excl_flag = 0) ∧
  (c.incl_flag ≠ 0 → r.flag &&& c.incl_flag ≠ 0) ∧
  (c.no_orphan = true → r.flag &&& BAM_FPAIRED ≠ 0 →
    r.flag &&& BAM_FPROPER_PAIR ≠ 0) ∧
  tag_missing r c.cell_tag = false ∧
  tag_missing r c.umi_tag = false ∧
  c.min_len ≤ r.positions.length

/-- Replace only the minimum mapping quality of a configuration. -/
def set_min_mapq (c : Config) (v : Nat) : Config := { c with min_mapq := v }

/-- Replace only the minimum aligned length of a configuration. -/
def set_min_len (c : Config) (v : Nat) : Config := { c with min_len := v }

/-- Replace only the exclusion flag mask of a configuration. -/
def set_excl_flag (c : Config) (v : Nat) : Config := { c with excl_flag := v }

/-- Replace only the inclusion flag mask of a configuration. -/
def set_incl_flag (c : Config) (v : Nat) : Config := { c with incl_flag := v }

/-- A handle that answers only "chr1" with 0-based start 99 and end 100
(used by the C9 witness). -/
def sam1 : Sam where
  fetch := fun chrom s e =>
    if chrom = "chr1" ∧ s = some 99 ∧ e = some 100 then FetchRes.ok [read0]
    else FetchRes.err

/-- The AD keep condition of the sample loop: the sample is considered
(`dp + oth > 0`) and its alt count is positive. -/
def keep_ad (a d o : String → Nat) (s : String) : Bool :=
  decide (0 < d s + o s) && decide (0 < a s)

/-- The DP keep condition of the sample loop. -/
def keep_dp (a d o : String → Nat) (s : String) : Bool :=
  decide (0 < d s + o s) && decide (0 < d s)

/-- The OTH keep condition of the sample loop. -/
def keep_oth (a d o : String → Nat) (s : String) : Bool :=
  decide (0 < d s + o s) && decide (0 < o s)

/-- A trivial feature machine over the unit state whose finalized
per-unit counts are the fixed list `cc` (used on concrete inputs). -/
def trivFeatM (cc : List (String × SCount)) : FeatMachine Unit Unit where
  add_region := fun _ _ => ()
  push_snp := fun _ _ => (0, ())
  stat := fun _ => (0, ())
  cell_cnt := fun _ => cc

/-- A concrete SNP on "chr1" used on concrete inputs. -/
def snp1 : SNP := ⟨"chr1", 100, 'A', 'G'⟩

/-- A concrete region with no SNPs. -/
def regEmpty : Region := ⟨"chr1", 0, 100, "G1", []⟩

/-- A concrete region holding the single SNP `snp1`. -/
def reg1 : Region := ⟨"chr1", 0, 100, "G2", [snp1]⟩

/-- The per-unit tally view used by the C1 witness: every unit of every
finalized SNP-machine state shows 6 reference, 4 alternative, 0
duplicate and 0 other supporting reads. -/
def u64 : Unit → String → SCount := fun _ _ => ⟨6, 4, 0, 0⟩

section CheckReadLemmas

theorem check_read_eq_zero_iff (r : Read) (c : Config) :
    check_read r c = 0 ↔ qualifies_spec r c := by
  unfold check_read qualifies_spec
  split_ifs with h1 h2 h3 h4 h5 h6 h7 <;> simp_all

theorem check_read_neg_codes (r : Read) (c : Config) :
    check_read r c ≠ 0 →
    check_read r c ∈ ([-2, -3, -4, -5, -11, -12, -21] : List Int) := by
  unfold check_read
  split_ifs <;> simp

theorem check_read_code_cases (r : Read) (c : Config) :
    (check_read r c = -2 ↔ r.mapq < c.min_mapq) ∧
    (check_read r c = -3 ↔ ¬ r.mapq < c.min_mapq ∧
      (c.excl_flag ≠ 0 ∧ r.flag &&& c.excl_flag ≠ 0)) ∧
    (check_read r c = -4 ↔ ¬ r.mapq < c.min_mapq ∧
      ¬ (c.excl_flag ≠ 0 ∧ r.flag &&& c.excl_flag ≠ 0) ∧
      (c.incl_flag ≠ 0 ∧ ¬ r.flag &&& c.incl_flag ≠ 0)) ∧
    (check_read r c = -5 ↔ ¬ r.mapq < c.min_mapq ∧
      ¬ (c.excl_flag ≠ 0 ∧ r.flag &&& c.excl_flag ≠ 0) ∧
      ¬ (c.incl_flag ≠ 0 ∧ ¬ r.flag &&& c.incl_flag ≠ 0) ∧
      (c.no_orphan = true ∧ r.flag &&& BAM_FPAIRED ≠ 0 ∧
        ¬ r.flag &&& BAM_FPROPER_PAIR ≠ 0)) ∧
    (check_read r c = -11 ↔ ¬ r.mapq < c.min_mapq ∧
      ¬ (c.excl_flag ≠ 0 ∧ r.flag &&& c.excl_flag ≠ 0) ∧
      ¬ (c.incl_flag ≠ 0 ∧ ¬ r.flag &&& c.incl_flag ≠ 0) ∧
      ¬ (c.no_orphan = true ∧ r.flag &&& BAM_FPAIRED ≠ 0 ∧
        ¬ r.flag &&& BAM_FPROPER_PAIR ≠ 0) ∧
      tag_missing r c.cell_tag = true) ∧
    (check_read r c = -12 ↔ ¬ r.mapq < c.min_mapq ∧
      ¬ (c.excl_flag ≠ 0 ∧ r.flag &&& c.excl_flag ≠ 0) ∧
      ¬ (c.incl_flag ≠ 0 ∧ ¬ r.flag &&& c.incl_flag ≠ 0) ∧
      ¬ (c.no_orphan = true ∧ r.flag &&& BAM_FPAIRED ≠ 0 ∧
        ¬ r.flag &&& BAM_FPROPER_PAIR ≠ 0) ∧
      tag_missing r c.cell_tag = false ∧
      tag_missing r c.umi_tag = true) ∧
    (check_read r c = -21 ↔ ¬ r.mapq < c.min_mapq ∧
      ¬ (c.excl_flag ≠ 0 ∧ r.flag &&& c.excl_flag ≠ 0) ∧
      ¬ (c.incl_flag ≠ 0 ∧ ¬ r.flag &&& c.incl_flag ≠ 0) ∧
      ¬ (c.no_orphan = true ∧ r.flag &&& BAM_FPAIRED ≠ 0 ∧
        ¬ r.flag &&& BAM_FPROPER_PAIR ≠ 0) ∧
      tag_missing r c.cell_tag = false ∧
      tag_missing r c.umi_tag = false ∧
      r.positions.length < c.min_len) := by
  unfold check_read
  split_ifs with h1 h2 h3 h4 h5 h6 h7 <;> simp_all

end CheckReadLemmas

/-- C3: `check_read` returns 0 exactly when the read's mapping quality
is at least min_mapq, no configured exclusion-flag bit is set, some
configured inclusion-flag bit is set, a paired read is a proper pair
when no-orphan is enabled, the read carries any configured cell-barcode
and UMI tags, and it aligns to at least min_len reference positions; on
failure it returns one of the distinct negative codes -2, -3, -4, -5,
-11, -12, -21, each identifying the first failing condition; as a Lean
function it has no side effects. -/
theorem check_read_qualification_contract (r : Read) (c : Config) :
    (check_read r c = 0 ↔ qualifies_spec r c) ∧
    (check_read r c ≠ 0 →
      check_read r c ∈ ([-2, -3, -4, -5, -11, -12, -21] : List Int)) ∧
    (check_read r c = -2 ↔ r.mapq < c.min_mapq) ∧
    (check_read r c = -3 ↔ ¬ r.mapq < c.min_mapq ∧
      (c.excl_flag ≠ 0 ∧ r.flag &&& c.excl_flag ≠ 0)) ∧
    (check_read r c = -21 ↔ ¬ r.mapq < c.min_mapq ∧
      ¬ (c.excl_flag ≠ 0 ∧ r.flag &&& c.excl_flag ≠ 0) ∧
      ¬ (c.incl_flag ≠ 0 ∧ ¬ r.flag &&& c.incl_flag ≠ 0) ∧
      ¬ (c.no_orphan = true ∧ r.flag &&& BAM_FPAIRED ≠ 0 ∧
        ¬ r.flag &&& BAM_FPROPER_PAIR ≠ 0) ∧
      tag_missing r c.cell_tag = false ∧
      tag_missing r c.umi_tag = false ∧
      r.positions.length < c.min_len) :=
  ⟨check_read_eq_zero_iff r c, check_read_neg_codes r c,
   (check_read_code_cases r c).1, (check_read_code_cases r c).2.1,
   (check_read_code_cases r c).2.2.2.2.2.2⟩

/-- Witness for C3: a concrete qualifying read and a concrete
low-quality read, evaluated through the theorem. -/
theorem check_read_qualification_contract_witness :
    check_read read0 conf0 = 0 ∧
    check_read ⟨5, 0, [], []⟩ conf0 ∈ ([-2, -3, -4, -5, -11, -12, -21] : List Int) :=
  ⟨(check_read_qualification_contract read0 conf0).1.mpr
     (by unfold qualifies_spec; decide),
   (check_read_qualification_contract ⟨5, 0, [], []⟩ conf0).2.1 (by decide)⟩

section Monotonicity

theorem land_ne_zero_of_superset {flag m v : Nat}
    (h : flag &&& m ≠ 0) (hs : m &&& v = m) : flag &&& v ≠ 0 := by
  obtain ⟨i, hi⟩ := Nat.ne_zero_implies_bit_true h
  rw [Nat.testBit_and] at hi
  have hf : flag.testBit i = true := (Bool.and_eq_true_iff.mp hi).1
  have hm : m.testBit i = true := (Bool.and_eq_true_iff.mp hi).2
  have hv : v.testBit i = true := by
    have h2 : (m &&& v).testBit i = m.testBit i := by rw [hs]
    rw [Nat.testBit_and, hm] at h2
    simpa using h2
  intro h0
  have h3 : (flag &&& v).testBit i = false := by
    rw [h0]; exact Nat.zero_testBit i
  rw [Nat.testBit_and, hf, hv] at h3
  simp at h3

theorem land_eq_zero_of_subset {flag m v : Nat}
    (h : flag &&& m = 0) (hs : v &&& m = v) : flag &&& v = 0 := by
  apply Nat.eq_of_testBit_eq
  intro i
  rw [Nat.testBit_and, Nat.zero_testBit]
  cases hf : flag.testBit i
  · simp
  · cases hv : v.testBit i
    · simp
    · exfalso
      have hm : m.testBit i = true := by
        have h2 : (v &&& m).testBit i = v.testBit i := by rw [hs]
        rw [Nat.testBit_and, hv] at h2
        simpa using h2
      have h3 : (flag &&& m).testBit i = false := by
        rw [h]; exact Nat.zero_testBit i
      rw [Nat.testBit_and, hf, hm] at h3
      simp at h3

theorem check_read_mono_mapq {r : Read} {c : Config} {v : Nat}
    (hv : v ≤ c.min_mapq) (h : check_read r c = 0) :
    check_read r (set_min_mapq c v) = 0 := by
  rw [check_read_eq_zero_iff] at h ⊢
  obtain ⟨h1, h2, h3, h4, h5, h6, h7⟩ := h
  exact ⟨le_trans hv h1, h2, h3, h4, h5, h6, h7⟩

theorem check_read_mono_len {r : Read} {c : Config} {v : Nat}
    (hv : v ≤ c.min_len) (h : check_read r c = 0) :
    check_read r (set_min_len c v) = 0 := by
  rw [check_read_eq_zero_iff] at h ⊢
  obtain ⟨h1, h2, h3, h4, h5, h6, h7⟩ := h
  exact ⟨h1, h2, h3, h4, h5, h6, le_trans hv h7⟩

theorem check_read_mono_excl {r : Read} {c : Config} {v : Nat}
    (hv : v &&& c.excl_flag = v) (h : check_read r c = 0) :
    check_read r (set_excl_flag c v) = 0 := by
  rw [check_read_eq_zero_iff] at h ⊢
  obtain ⟨h1, h2, h3, h4, h5, h6, h7⟩ := h
  refine ⟨h1, ?_, h3, h4, h5, h6, h7⟩
  intro hv0
  by_cases he : c.excl_flag = 0
  · rw [he, Nat.and_zero] at hv
    exact absurd hv.symm hv0
  · exact land_eq_zero_of_subset (h2 he) hv

theorem check_read_mono_incl {r : Read} {c : Config} {v : Nat}
    (hv : v = 0 ∨ (c.incl_flag &&& v = c.incl_flag ∧ c.incl_flag ≠ 0))
    (h : check_read r c = 0) : check_read r (set_incl_flag c v) = 0 := by
  rw [check_read_eq_zero_iff] at h ⊢
  obtain ⟨h1, h2, h3, h4, h5, h6, h7⟩ := h
  refine ⟨h1, h2, ?_, h4, h5, h6, h7⟩
  intro hv0
  rcases hv with rfl | ⟨hsub, hne⟩
  · exact absurd rfl hv0
  · exact land_ne_zero_of_superset (h3 hne) hsub

/-- C8: for a fixed read list, lowering min_mapq, lowering min_len,
narrowing the exclusion mask to a subset of its bits (including
disabling it), or replacing the inclusion mask by a superset of its bits
(or disabling it) never decreases the number of reads with
`check_read` = 0. -/
theorem check_read_monotone (reads : List Read) (c : Config) :
    (∀ v, v ≤ c.min_mapq →
      reads.countP (fun r => check_read r c == 0) ≤
        reads.countP (fun r => check_read r (set_min_mapq c v) == 0)) ∧
    (∀ v, v ≤ c.min_len →
      reads.countP (fun r => check_read r c == 0) ≤
        reads.countP (fun r => check_read r (set_min_len c v) == 0)) ∧
    (∀ v, v &&& c.excl_flag = v →
      reads.countP (fun r => check_read r c == 0) ≤
        reads.countP (fun r => check_read r (set_excl_flag c v) == 0)) ∧
    (∀ v, v = 0 ∨ (c.incl_flag &&& v = c.incl_flag ∧ c.incl_flag ≠ 0) →
      reads.countP (fun r => check_read r c == 0) ≤
        reads.countP (fun r => check_read r (set_incl_flag c v) == 0)) := by
  refine ⟨fun v hv => ?_, fun v hv => ?_, fun v hv => ?_, fun v hv => ?_⟩ <;>
    apply List.countP_mono_left <;> intro r _ hr
  · exact beq_iff_eq.mpr (check_read_mono_mapq hv (beq_iff_eq.mp hr))
  · exact beq_iff_eq.mpr (check_read_mono_len hv (beq_iff_eq.mp hr))
  · exact beq_iff_eq.mpr (check_read_mono_excl hv (beq_iff_eq.mp hr))
  · exact beq_iff_eq.mpr (check_read_mono_incl hv (beq_iff_eq.mp hr))

/-- Witness for C8: on a concrete two-read list, lowering min_mapq from
20 to 10 does not decrease the qualifying count. -/
theorem check_read_monotone_witness :
    [read0, ⟨5, 0, [], []⟩].countP (fun r => check_read r conf0 == 0) ≤
      [read0, ⟨5, 0, [], []⟩].countP
        (fun r => check_read r (set_min_mapq conf0 10) == 0) :=
  (check_read_monotone [read0, ⟨5, 0, [], []⟩] conf0).1 10 (by decide)

end Monotonicity

section QcGate

theorem snp_qc_gate_eq_three_iff (t : List Nat) (ri ai : Nat) (c : Config) :
    snp_qc_gate t ri ai c = 3 ↔ t.sum < c.min_count := by
  simp only [snp_qc_gate]
  split_ifs with h1 h2 <;> simp_all

theorem snp_qc_gate_eq_five_iff (t : List Nat) (ri ai : Nat) (c : Config) :
    snp_qc_gate t ri ai c = 5 ↔ c.min_count ≤ t.sum ∧
      ((min (t.getD ri 0) (t.getD ai 0) : Nat) : Rat) <
        (t.sum : Rat) * c.min_maf := by
  simp only [snp_qc_gate]
  split_ifs with h1 h2 <;> simp_all [Nat.not_lt]

theorem snp_qc_gate_eq_zero_iff (t : List Nat) (ri ai : Nat) (c : Config) :
    snp_qc_gate t ri ai c = 0 ↔ c.min_count ≤ t.sum ∧
      ¬ ((min (t.getD ri 0) (t.getD ai 0) : Nat) : Rat) <
          (t.sum : Rat) * c.min_maf := by
  simp only [snp_qc_gate]
  split_ifs with h1 h2 <;> simp_all [Nat.not_lt]

theorem snp_qc_gate_cases (t : List Nat) (ri ai : Nat) (c : Config) :
    snp_qc_gate t ri ai c = 0 ∨ snp_qc_gate t ri ai c = 3 ∨
      snp_qc_gate t ri ai c = 5 := by
  simp only [snp_qc_gate]
  split_ifs <;> simp

theorem plp_snp_pos_filter_code {σ : Type} (Ms : SnpMachine σ) (snp : SNP)
    (sam_list : List Sam) (m : σ) (conf : Config)
    (h : 0 < (plp_snp Ms snp sam_list m conf).1) :
    (plp_snp Ms snp sam_list m conf).1 = 3 ∨
      (plp_snp Ms snp sam_list m conf).1 = 5 := by
  unfold plp_snp at h ⊢
  by_cases ha : (Ms.add_snp m snp).1 < 0
  · simp [ha] at h
  · simp only [ha, if_false] at h ⊢
    revert h
    cases hs : plp_sams Ms conf snp sam_list 0 (Ms.add_snp m snp).2 with
    | error m' => intro h; simp at h
    | ok m' =>
      intro h
      dsimp only at h ⊢
      by_cases hst : (Ms.stat m').1 < 0
      · simp [hst] at h
      · rw [if_neg hst] at h ⊢
        dsimp only at h ⊢
        rcases snp_qc_gate_cases (Ms.tcount (Ms.stat m').2)
            (Ms.base_idx (Ms.stat m').2 snp.ref)
            (Ms.base_idx (Ms.stat m').2 snp.alt) conf with h0 | h3 | h5
        · rw [h0] at h; omega
        · exact Or.inl h3
        · exact Or.inr h5

theorem fc_fet1_loop_skip {σ τ : Type} (Ms : SnpMachine σ)
    (Mf : FeatMachine τ σ) (sam_list : List Sam) (conf : Config) (snp : SNP)
    (snps : List SNP) (sm : σ) (fm : τ)
    (h : 0 < (plp_snp Ms snp sam_list sm conf).1) :
    fc_fet1_loop Ms Mf sam_list conf (snp :: snps) sm fm =
      fc_fet1_loop Ms Mf sam_list conf snps
        (plp_snp Ms snp sam_list sm conf).2 fm := by
  have h' : ¬ (plp_snp Ms snp sam_list sm conf).1 < 0 := by omega
  simp [fc_fet1_loop, h, h']

theorem fc_fet1_loop_push {σ τ : Type} (Ms : SnpMachine σ)
    (Mf : FeatMachine τ σ) (sam_list : List Sam) (conf : Config) (snp : SNP)
    (snps : List SNP) (sm : σ) (fm : τ)
    (h0 : (plp_snp Ms snp sam_list sm conf).1 = 0)
    (hp : ¬ (Mf.push_snp fm (plp_snp Ms snp sam_list sm conf).2).1 < 0) :
    fc_fet1_loop Ms Mf sam_list conf (snp :: snps) sm fm =
      fc_fet1_loop Ms Mf sam_list conf snps
        (plp_snp Ms snp sam_list sm conf).2
        (Mf.push_snp fm (plp_snp Ms snp sam_list sm conf).2).2 := by
  simp [fc_fet1_loop, h0, hp]

end QcGate

/-- C2: the SNP-level QC gate returns the filter code 3 exactly when the
total of all base counts is below min_count, the filter code 5 exactly
when the total passes but min(ref_total, alt_total) < total * min_maf,
and 0 exactly when both tests pass; it never returns a negative (error)
code; it is a pure function of the finalized counts and the
configuration; a positive `plp_snp` return is one of these two filter
codes and makes the region loop skip to the next SNP, and only a return
of 0 pushes the tally into the feature aggregate. -/
theorem snp_qc_gate_contract (t : List Nat) (ri ai : Nat) (c : Config) :
    (snp_qc_gate t ri ai c = 3 ↔ t.sum < c.min_count) ∧
    (snp_qc_gate t ri ai c = 5 ↔ c.min_count ≤ t.sum ∧
      ((min (t.getD ri 0) (t.getD ai 0) : Nat) : Rat) <
        (t.sum : Rat) * c.min_maf) ∧
    (snp_qc_gate t ri ai c = 0 ↔ c.min_count ≤ t.sum ∧
      ¬ ((min (t.getD ri 0) (t.getD ai 0) : Nat) : Rat) <
          (t.sum : Rat) * c.min_maf) ∧
    (snp_qc_gate t ri ai c = 0 ∨ 0 < snp_qc_gate t ri ai c) ∧
    (∀ (t' : List Nat) (ri' ai' : Nat) (c' : Config),
      t' = t → ri' = ri → ai' = ai → c' = c →
      snp_qc_gate t' ri' ai' c' = snp_qc_gate t ri ai c) ∧
    (∀ (σ τ : Type) (Ms : SnpMachine σ) (Mf : FeatMachine τ σ)
        (sam_list : List Sam) (snp : SNP) (snps : List SNP) (sm : σ) (fm : τ),
      (0 < (plp_snp Ms snp sam_list sm c).1 →
        ((plp_snp Ms snp sam_list sm c).1 = 3 ∨
          (plp_snp Ms snp sam_list sm c).1 = 5) ∧
        fc_fet1_loop Ms Mf sam_list c (snp :: snps) sm fm =
          fc_fet1_loop Ms Mf sam_list c snps
            (plp_snp Ms snp sam_list sm c).2 fm) ∧
      ((plp_snp Ms snp sam_list sm c).1 = 0 →
        ¬ (Mf.push_snp fm (plp_snp Ms snp sam_list sm c).2).1 < 0 →
        fc_fet1_loop Ms Mf sam_list c (snp :: snps) sm fm =
          fc_fet1_loop Ms Mf sam_list c snps
            (plp_snp Ms snp sam_list sm c).2
            (Mf.push_snp fm (plp_snp Ms snp sam_list sm c).2).2)) := by
  refine ⟨snp_qc_gate_eq_three_iff t ri ai c, snp_qc_gate_eq_five_iff t ri ai c,
    snp_qc_gate_eq_zero_iff t ri ai c, ?_, ?_, ?_⟩
  · rcases snp_qc_gate_cases t ri ai c with h | h | h <;> omega
  · intro t' ri' ai' c' h1 h2 h3 h4
    rw [h1, h2, h3, h4]
  · intro σ τ Ms Mf sam_list snp snps sm fm
    exact ⟨fun h => ⟨plp_snp_pos_filter_code Ms snp sam_list sm c h,
        fc_fet1_loop_skip Ms Mf sam_list c snp snps sm fm h⟩,
      fun h0 hp => fc_fet1_loop_push Ms Mf sam_list c snp snps sm fm h0 hp⟩

/-- Witness for C2: the concrete finalized tally [6, 4] with min_count
10 and min_maf 1/5 passes the gate (total 10 >= 10, minor 4 >= 2), and
[9, 1] is rejected with the MAF filter code 5 (minor 1 < 2). -/
theorem snp_qc_gate_contract_witness :
    snp_qc_gate [6, 4] 0 1 conf0 = 0 ∧ snp_qc_gate [9, 1] 0 1 conf0 = 5 :=
  ⟨(snp_qc_gate_contract [6, 4] 0 1 conf0).2.2.1.mpr (by norm_num [conf0]),
   (snp_qc_gate_contract [9, 1] 0 1 conf0).2.1.mpr (by norm_num [conf0])⟩

/-- C9: `sam_fetch` passes the 1-based start to the underlying fetch
shifted to 0-based; a first fetch that succeeds with a nonempty iterator
is returned as-is; on a failed or empty first fetch it retries exactly
once with the alternate chromosome form ("chr" prefix stripped when
present, otherwise added) and returns that iterator when nonempty, and
`none` when the retry fails or is empty as well. -/
theorem sam_fetch_contract (sam : Sam) (chrom : String) (s e : Option Int) :
    (∀ l, sam.fetch chrom (s.map (fun x => x - 1)) e = FetchRes.ok l →
      l ≠ [] → sam_fetch sam chrom s e = some l) ∧
    ((sam.fetch chrom (s.map (fun x => x - 1)) e = FetchRes.err ∨
        sam.fetch chrom (s.map (fun x => x - 1)) e = FetchRes.ok []) →
      (sam.fetch (alt_chrom chrom) (s.map (fun x => x - 1)) e = FetchRes.err →
        sam_fetch sam chrom s e = none) ∧
      (∀ l, sam.fetch (alt_chrom chrom) (s.map (fun x => x - 1)) e =
          FetchRes.ok l →
        sam_fetch sam chrom s e = (if l = [] then none else some l))) ∧
    (chrom.startsWith "chr" = true → alt_chrom chrom = chrom.drop 3) ∧
    (chrom.startsWith "chr" = false → alt_chrom chrom = "chr" ++ chrom) := by
  refine ⟨?_, ?_, ?_, ?_⟩
  · intro l hl hne
    simp only [sam_fetch]
    rw [hl]
    simp [hne]
  · intro hfail
    constructor
    · intro halt
      simp only [sam_fetch]
      rcases hfail with hf | hf <;> rw [hf] <;> rw [halt] <;> simp
    · intro l halt
      simp only [sam_fetch]
      rcases hfail with hf | hf <;> rw [hf] <;> rw [halt] <;>
        by_cases hl : l = [] <;> simp [hl]
  · intro h
    simp [alt_chrom, h]
  · intro h
    simp [alt_chrom, h]

/-- Witness for C9: fetching "1" (no "chr" prefix) at 1-based position
100 fails on the first attempt and succeeds on the "chr1" retry. -/
theorem sam_fetch_contract_witness :
    sam_fetch sam1 "1" (some 100) (some 100) = some [read0] := by
  have h := ((sam_fetch_contract sam1 "1" (some 100) (some 100)).2.1
    (Or.inl (by decide))).2 [read0] (by decide)
  simpa using h

section EmitLemmas

theorem emit_lines_eq (reg_idx : Nat) (a d o : String → Nat) :
    ∀ (samples : List String) (i : Nat),
      emit_lines reg_idx a d o i samples =
        (sel_lines reg_idx a (keep_ad a d o) i samples,
         sel_lines reg_idx d (keep_dp a d o) i samples,
         sel_lines reg_idx o (keep_oth a d o) i samples)
  | [], i => rfl
  | smp :: rest, i => by
    have ih := emit_lines_eq reg_idx a d o rest (i + 1)
    simp only [emit_lines, sel_lines, ih, keep_ad, keep_dp, keep_oth]
    by_cases h0 : d smp + o smp ≤ 0
    · have hd : ¬ 0 < d smp + o smp := by omega
      simp [h0, hd]
    · have hd : 0 < d smp + o smp := by omega
      simp [h0, hd]

theorem sel_lines_ne_nil_iff (reg_idx : Nat) (v : String → Nat)
    (keep : String → Bool) :
    ∀ (samples : List String) (i : Nat),
      sel_lines reg_idx v keep i samples ≠ [] ↔
        ∃ smp ∈ samples, keep smp = true
  | [], i => by simp [sel_lines]
  | smp :: rest, i => by
    have ih := sel_lines_ne_nil_iff reg_idx v keep rest (i + 1)
    by_cases hk : keep smp
    · simp [sel_lines, hk]
    · simp [sel_lines, hk, ih]

theorem emit_guard_iff (reg_idx : Nat) (a d o : String → Nat)
    (samples : List String) (i : Nat) :
    ((emit_lines reg_idx a d o i samples).2.1 ≠ [] ∨
      (emit_lines reg_idx a d o i samples).2.2 ≠ []) ↔
      ∃ smp ∈ samples, 0 < d smp ∨ 0 < o smp := by
  rw [emit_lines_eq]
  dsimp only
  rw [sel_lines_ne_nil_iff, sel_lines_ne_nil_iff]
  constructor
  · rintro (⟨smp, hmem, hk⟩ | ⟨smp, hmem, hk⟩) <;>
      refine ⟨smp, hmem, ?_⟩ <;>
      simp only [keep_dp, keep_oth, Bool.and_eq_true, decide_eq_true_eq] at hk
    · exact Or.inl hk.2
    · exact Or.inr hk.2
  · rintro ⟨smp, hmem, hd | ho⟩
    · exact Or.inl ⟨smp, hmem, by
        simp only [keep_dp, Bool.and_eq_true, decide_eq_true_eq]
        exact ⟨by omega, hd⟩⟩
    · exact Or.inr ⟨smp, hmem, by
        simp only [keep_oth, Bool.and_eq_true, decide_eq_true_eq]
        exact ⟨by omega, ho⟩⟩

theorem emit_ad_ne_nil_imp (reg_idx : Nat) (a d o : String → Nat)
    (samples : List String) (i : Nat)
    (h : (emit_lines reg_idx a d o i samples).1 ≠ []) :
    (emit_lines reg_idx a d o i samples).2.1 ≠ [] ∨
      (emit_lines reg_idx a d o i samples).2.2 ≠ [] := by
  rw [emit_guard_iff]
  rw [emit_lines_eq] at h
  dsimp only at h
  rw [sel_lines_ne_nil_iff] at h
  obtain ⟨smp, hmem, hk⟩ := h
  simp only [keep_ad, Bool.and_eq_true, decide_eq_true_eq] at hk
  exact ⟨smp, hmem, by omega⟩

end EmitLemmas

/-- C4: the per-sample output loop produces, for each of the three
streams, exactly the sparse records `(reg_idx + 1, i + 1, count)` of the
samples `smp` at position `i` with `dp smp + oth smp > 0` whose
respective count is positive; and a region contributes AD/DP/OTH stream
writes (the guard `str_dp or str_oth` of core.py line 101, and hence any
change to the three streams in `fc_features_step`) exactly when at least
one sample has nonzero DP or OTH. -/
theorem emit_triplets_contract (reg_idx : Nat) (a d o : String → Nat)
    (samples : List String) :
    (∀ i, emit_lines reg_idx a d o i samples =
      (sel_lines reg_idx a (keep_ad a d o) i samples,
       sel_lines reg_idx d (keep_dp a d o) i samples,
       sel_lines reg_idx o (keep_oth a d o) i samples)) ∧
    (∀ i, ((emit_lines reg_idx a d o i samples).2.1 ≠ [] ∨
        (emit_lines reg_idx a d o i samples).2.2 ≠ []) ↔
      ∃ smp ∈ samples, 0 < d smp ∨ 0 < o smp) ∧
    (∀ (σ τ : Type) (Ms : SnpMachine σ) (Mf : FeatMachine τ σ)
        (sam_list : List Sam) (conf : Config) (reg : Region) (idx : Nat)
        (st st' : WorkerState σ τ),
      fc_features_step Ms Mf sam_list conf reg idx st = Except.ok st' →
      st'.dp_stream = st.dp_stream → st'.oth_stream = st.oth_stream →
      st'.ad_stream = st.ad_stream) := by
  refine ⟨fun i => emit_lines_eq reg_idx a d o samples i,
    fun i => emit_guard_iff reg_idx a d o samples i, ?_⟩
  intro σ τ Ms Mf sam_list conf reg idx st st' hstep hdp hoth
  unfold fc_features_step at hstep
  by_cases hsnp : reg.snp_list = []
  · rw [if_pos hsnp] at hstep
    cases hstep
    rfl
  · rw [if_neg hsnp] at hstep
    by_cases hret : (fc_fet1 Ms Mf reg sam_list st.sm
        (Mf.add_region st.fm reg) conf).ret < 0
    · rw [if_pos hret] at hstep
      cases hstep
    · rw [if_neg hret] at hstep
      revert hstep
      cases hc : (fc_fet1 Ms Mf reg sam_list st.sm
          (Mf.add_region st.fm reg) conf).cnts with
      | none => intro hstep; cases hstep; rfl
      | some c =>
        obtain ⟨ca, cd, co⟩ := c
        intro hstep
        dsimp only at hstep
        by_cases hg : (emit_lines idx ca cd co 0 conf.samples).2.1 ≠ [] ∨
            (emit_lines idx ca cd co 0 conf.samples).2.2 ≠ []
        · rw [if_pos hg] at hstep
          cases hstep
          dsimp only at hdp hoth ⊢
          rcases hg with hg | hg
          · exact absurd (List.append_right_eq_self.mp hdp) hg
          · exact absurd (List.append_right_eq_self.mp hoth) hg
        · rw [if_neg hg] at hstep
          cases hstep
          rfl

/-- Witness for C4: the first conjunct evaluated on concrete counts
(one sample with alt 4, dp 10, oth 0), and the third conjunct applied to
a concrete no-SNP region step. -/
theorem emit_triplets_contract_witness :
    (emit_lines 0 (fun _ => 4) (fun _ => 10) (fun _ => 0) 0 ["S1"] =
      ([(1, 1, 4)], [(1, 1, 10)], []) : Prop) ∧
    ((⟨(), (), [reg_line regEmpty], [], [], [], 0, 0, 0⟩ :
        WorkerState Unit Unit).ad_stream =
      (init_state () () : WorkerState Unit Unit).ad_stream) := by
  constructor
  · rw [(emit_triplets_contract 0 (fun _ => 4) (fun _ => 10) (fun _ => 0)
      ["S1"]).1 0]
    decide
  · exact (emit_triplets_contract 0 (fun _ => 4) (fun _ => 10) (fun _ => 0)
      ["S1"]).2.2 Unit Unit (trivSnpM [6, 4]) (trivFeatM [("S1", ⟨6, 4, 0, 0⟩)])
      [] conf0 regEmpty 0 (init_state () ())
      ⟨(), (), [reg_line regEmpty], [], [], [], 0, 0, 0⟩ rfl rfl rfl

section RegionStream

theorem fc_features_step_reg_stream {σ τ : Type} (Ms : SnpMachine σ)
    (Mf : FeatMachine τ σ) (sam_list : List Sam) (conf : Config)
    (reg : Region) (idx : Nat) (st st' : WorkerState σ τ)
    (h : fc_features_step Ms Mf sam_list conf reg idx st = Except.ok st') :
    st'.reg_stream = st.reg_stream ++ [reg_line reg] := by
  simp only [fc_features_step] at h
  split at h
  · cases h; rfl
  · split at h
    · cases h
    · split at h
      · cases h; rfl
      · split at h
        · cases h; rfl
        · cases h; rfl

theorem fc_features_loop_reg_stream {σ τ : Type} (Ms : SnpMachine σ)
    (Mf : FeatMachine τ σ) (sam_list : List Sam) (conf : Config) :
    ∀ (regs : List Region) (idx : Nat) (st st' : WorkerState σ τ),
      fc_features_loop Ms Mf sam_list conf regs idx st = Except.ok st' →
      st'.reg_stream = st.reg_stream ++ regs.map reg_line
  | [], idx, st, st', h => by
    cases h
    simp
  | reg :: regs, idx, st, st', h => by
    simp only [fc_features_loop] at h
    revert h
    cases hs : fc_features_step Ms Mf sam_list conf reg idx st with
    | error st1 => intro h; cases h
    | ok st1 =>
      intro h
      have h1 := fc_features_step_reg_stream Ms Mf sam_list conf reg idx st st1 hs
      have h2 := fc_features_loop_reg_stream Ms Mf sam_list conf regs
        (idx + 1) st1 st' h
      rw [h2, h1]
      simp

end RegionStream

/-- C7: for every region of the worker's assigned list, a successful
`fc_features` run writes exactly one region-metadata line per region to
the region stream, in list order and regardless of SNP content, each
formatted by `reg_line` as chrom, tab, start, tab, end - 1, tab, name. -/
theorem fc_features_region_metadata {σ τ : Type} (Ms : SnpMachine σ)
    (Mf : FeatMachine τ σ) (sam_list : List Sam) (conf : Config)
    (reg_list : List Region) (sm : σ) (fm : τ) (st' : WorkerState σ τ)
    (h : fc_features Ms Mf sam_list conf reg_list sm fm = Except.ok st') :
    st'.reg_stream = reg_list.map reg_line := by
  have h2 := fc_features_loop_reg_stream Ms Mf sam_list conf reg_list 0
    (init_state sm fm) st' h
  simpa [init_state] using h2

/-- Witness for C7: a concrete run over a no-SNP region followed by a
one-SNP region whose SNP is accepted; the region stream holds exactly
the two metadata lines in order. -/
theorem fc_features_region_metadata_witness :
    (⟨(), (), [reg_line regEmpty, reg_line reg1], [(2, 1, 4)],
        [(2, 1, 10)], [], 1, 1, 0⟩ : WorkerState Unit Unit).reg_stream =
      [regEmpty, reg1].map reg_line :=
  fc_features_region_metadata (trivSnpM [6, 4])
    (trivFeatM [("S1", ⟨6, 4, 0, 0⟩)]) [] conf0 [regEmpty, reg1] () ()
    ⟨(), (), [reg_line regEmpty, reg_line reg1], [(2, 1, 4)],
      [(2, 1, 10)], [], 1, 1, 0⟩ (by rfl)

section Atomicity

theorem fc_features_step_error_frame {σ τ : Type} (Ms : SnpMachine σ)
    (Mf : FeatMachine τ σ) (sam_list : List Sam) (conf : Config)
    (reg : Region) (idx : Nat) (st st' : WorkerState σ τ)
    (h : fc_features_step Ms Mf sam_list conf reg idx st = Except.error st') :
    st'.ad_stream = st.ad_stream ∧ st'.dp_stream = st.dp_stream ∧
      st'.oth_stream = st.oth_stream ∧ st'.nr_ad = st.nr_ad ∧
      st'.nr_dp = st.nr_dp ∧ st'.nr_oth = st.nr_oth := by
  simp only [fc_features_step] at h
  split at h
  · cases h
  · split at h
    · cases h
      exact ⟨rfl, rfl, rfl, rfl, rfl, rfl⟩
    · split at h
      · cases h
      · split at h
        · cases h
        · cases h

theorem fc_features_step_ok_frame {σ τ : Type} (Ms : SnpMachine σ)
    (Mf : FeatMachine τ σ) (sam_list : List Sam) (conf : Config)
    (reg : Region) (idx : Nat) (st st' : WorkerState σ τ)
    (h : fc_features_step Ms Mf sam_list conf reg idx st = Except.ok st') :
    ∃ ea ed eo, st'.ad_stream = st.ad_stream ++ ea ∧
      st'.dp_stream = st.dp_stream ++ ed ∧
      st'.oth_stream = st.oth_stream ++ eo ∧
      ((ea = [] ∧ ed = [] ∧ eo = []) ∨ (ed ≠ [] ∨ eo ≠ [])) := by
  simp only [fc_features_step] at h
  split at h
  · cases h
    exact ⟨[], [], [], by simp, by simp, by simp, Or.inl ⟨rfl, rfl, rfl⟩⟩
  · split at h
    · cases h
    · split at h
      · cases h
        exact ⟨[], [], [], by simp, by simp, by simp, Or.inl ⟨rfl, rfl, rfl⟩⟩
      · rename_i hguard
        split at h
        · rename_i hg
          cases h
          exact ⟨_, _, _, rfl, rfl, rfl, Or.inr hg⟩
        · cases h
          exact ⟨[], [], [], by simp, by simp, by simp, Or.inl ⟨rfl, rfl, rfl⟩⟩

theorem fc_features_loop_error_decomp {σ τ : Type} (Ms : SnpMachine σ)
    (Mf : FeatMachine τ σ) (sam_list : List Sam) (conf : Config) :
    ∀ (regs : List Region) (idx : Nat) (st st' : WorkerState σ τ),
      fc_features_loop Ms Mf sam_list conf regs idx st = Except.error st' →
      ∃ (regs₁ : List Region) (reg : Region) (regs₂ : List Region)
        (st₁ : WorkerState σ τ),
        regs = regs₁ ++ reg :: regs₂ ∧
        fc_features_loop Ms Mf sam_list conf regs₁ idx st = Except.ok st₁ ∧
        fc_features_step Ms Mf sam_list conf reg (idx + regs₁.length) st₁ =
          Except.error st' ∧
        st'.ad_stream = st₁.ad_stream ∧ st'.dp_stream = st₁.dp_stream ∧
        st'.oth_stream = st₁.oth_stream
  | [], idx, st, st', h => by cases h
  | reg :: regs, idx, st, st', h => by
    simp only [fc_features_loop] at h
    revert h
    cases hs : fc_features_step Ms Mf sam_list conf reg idx st with
    | error st1 =>
      intro h
      dsimp only at h
      injection h with h'
      subst h'
      obtain ⟨h1, h2, h3, _, _, _⟩ :=
        fc_features_step_error_frame Ms Mf sam_list conf reg idx st st1 hs
      exact ⟨[], reg, regs, st, rfl, rfl, by simpa using hs, h1, h2, h3⟩
    | ok st1 =>
      intro h
      dsimp only at h
      obtain ⟨r1, r, r2, st₁, hr, hl, hstep, e1, e2, e3⟩ :=
        fc_features_loop_error_decomp Ms Mf sam_list conf regs (idx + 1) st1
          st' h
      refine ⟨reg :: r1, r, r2, st₁, by rw [hr]; simp, ?_, ?_, e1, e2, e3⟩
      · simp only [fc_features_loop, hs]
        exact hl
      · have hidx : idx + (reg :: r1).length = (idx + 1) + r1.length := by
          simp [List.length_cons]
          omega
        rw [hidx]
        exact hstep

end Atomicity

/-- C5: region output is atomic per region.  If a region's step aborts
(Except.error), the three count streams are exactly as they were before
the region (no count lines for the region were written); if it
completes, either all three streams receive their contribution for the
region simultaneously (with a nonempty DP or OTH block) or none of them
changes; and a whole-run abort always decomposes into fully processed
earlier regions plus an aborting region that contributed nothing to any
count stream. -/
theorem region_output_atomic {σ τ : Type} (Ms : SnpMachine σ)
    (Mf : FeatMachine τ σ) (sam_list : List Sam) (conf : Config) :
    (∀ (reg : Region) (idx : Nat) (st st' : WorkerState σ τ),
      fc_features_step Ms Mf sam_list conf reg idx st = Except.error st' →
      st'.ad_stream = st.ad_stream ∧ st'.dp_stream = st.dp_stream ∧
        st'.oth_stream = st.oth_stream) ∧
    (∀ (reg : Region) (idx : Nat) (st st' : WorkerState σ τ),
      fc_features_step Ms Mf sam_list conf reg idx st = Except.ok st' →
      ∃ ea ed eo, st'.ad_stream = st.ad_stream ++ ea ∧
        st'.dp_stream = st.dp_stream ++ ed ∧
        st'.oth_stream = st.oth_stream ++ eo ∧
        ((ea = [] ∧ ed = [] ∧ eo = []) ∨ (ed ≠ [] ∨ eo ≠ []))) ∧
    (∀ (regs : List Region) (idx : Nat) (st st' : WorkerState σ τ),
      fc_features_loop Ms Mf sam_list conf regs idx st = Except.error st' →
      ∃ (regs₁ : List Region) (reg : Region) (regs₂ : List Region)
        (st₁ : WorkerState σ τ),
        regs = regs₁ ++ reg :: regs₂ ∧
        fc_features_loop Ms Mf sam_list conf regs₁ idx st = Except.ok st₁ ∧
        fc_features_step Ms Mf sam_list conf reg (idx + regs₁.length) st₁ =
          Except.error st' ∧
        st'.ad_stream = st₁.ad_stream ∧ st'.dp_stream = st₁.dp_stream ∧
        st'.oth_stream = st₁.oth_stream) :=
  ⟨fun reg idx st st' h =>
      ⟨(fc_features_step_error_frame Ms Mf sam_list conf reg idx st st' h).1,
       (fc_features_step_error_frame Ms Mf sam_list conf reg idx st st' h).2.1,
       (fc_features_step_error_frame Ms Mf sam_list conf reg idx st st'
         h).2.2.1⟩,
    fun reg idx st st' h =>
      fc_features_step_ok_frame Ms Mf sam_list conf reg idx st st' h,
    fun regs idx st st' h =>
      fc_features_loop_error_decomp Ms Mf sam_list conf regs idx st st' h⟩

/-- Witness for C5: a concrete aborting region (fatal `push_read`)
leaves all three count streams empty. -/
theorem region_output_atomic_witness :
    (⟨(), (), [reg_line reg1], [], [], [], 0, 0, 0⟩ :
        WorkerState Unit Unit).ad_stream =
      (init_state () () : WorkerState Unit Unit).ad_stream ∧
    (⟨(), (), [reg_line reg1], [], [], [], 0, 0, 0⟩ :
        WorkerState Unit Unit).dp_stream =
      (init_state () () : WorkerState Unit Unit).dp_stream ∧
    (⟨(), (), [reg_line reg1], [], [], [], 0, 0, 0⟩ :
        WorkerState Unit Unit).oth_stream =
      (init_state () () : WorkerState Unit Unit).oth_stream :=
  (region_output_atomic fatalSnpM (trivFeatM [("S1", ⟨6, 4, 0, 0⟩)])
    [trivSam read0] conf0).1 reg1 0 (init_state () ())
    ⟨(), (), [reg_line reg1], [], [], [], 0, 0, 0⟩ (by rfl)

/-- C6: error-severity routing in the per-SNP pileup.  An unqualified
read is skipped; a `push_read` return of -1 is fatal and aborts the read
loop with the state at the corruption; any other negative `push_read`
return merely drops that read and continues; a fatal read loop makes
`plp_snp` return -5, a negative `plp_snp` return aborts the whole region
(the SNP loop returns the error -3, and the region step raises), the
raised error stops the worker loop, while a positive (QC filter) return
just skips to the next SNP. -/
theorem error_severity_routing {σ τ : Type} (Ms : SnpMachine σ)
    (Mf : FeatMachine τ σ) (conf : Config) (samp : Option String) :
    (∀ (r : Read) (rs : List Read) (m : σ), check_read r conf < 0 →
      plp_reads Ms conf samp (r :: rs) m = plp_reads Ms conf samp rs m) ∧
    (∀ (r : Read) (rs : List Read) (m m' : σ), check_read r conf = 0 →
      Ms.push_read m r samp = (-1, m') →
      plp_reads Ms conf samp (r :: rs) m = Except.error m') ∧
    (∀ (r : Read) (rs : List Read) (m m' : σ) (ret : Int),
      check_read r conf = 0 → Ms.push_read m r samp = (ret, m') →
      ret < 0 → ret ≠ -1 →
      plp_reads Ms conf samp (r :: rs) m = plp_reads Ms conf samp rs m') ∧
    (∀ (snp : SNP) (sam_list : List Sam) (mcnt m' : σ),
      ¬ (Ms.add_snp mcnt snp).1 < 0 →
      plp_sams Ms conf snp sam_list 0 (Ms.add_snp mcnt snp).2 =
        Except.error m' →
      plp_snp Ms snp sam_list mcnt conf = (-5, m')) ∧
    (∀ (sam_list : List Sam) (snp : SNP) (snps : List SNP) (sm : σ) (fm : τ),
      (plp_snp Ms snp sam_list sm conf).1 < 0 →
      fc_fet1_loop Ms Mf sam_list conf (snp :: snps) sm fm =
        Except.error (-3)) ∧
    (∀ (sam_list : List Sam) (snp : SNP) (snps : List SNP) (sm : σ) (fm : τ),
      0 < (plp_snp Ms snp sam_list sm conf).1 →
      fc_fet1_loop Ms Mf sam_list conf (snp :: snps) sm fm =
        fc_fet1_loop Ms Mf sam_list conf snps
          (plp_snp Ms snp sam_list sm conf).2 fm) ∧
    (∀ (sam_list : List Sam) (reg : Region) (idx : Nat)
        (st : WorkerState σ τ), reg.snp_list ≠ [] →
      (fc_fet1 Ms Mf reg sam_list st.sm (Mf.add_region st.fm reg) conf).ret
          < 0 →
      ∃ st', fc_features_step Ms Mf sam_list conf reg idx st =
        Except.error st') ∧
    (∀ (sam_list : List Sam) (regs : List Region) (reg : Region) (idx : Nat)
        (st st' : WorkerState σ τ),
      fc_features_step Ms Mf sam_list conf reg idx st = Except.error st' →
      fc_features_loop Ms Mf sam_list conf (reg :: regs) idx st =
        Except.error st') := by
  refine ⟨?_, ?_, ?_, ?_, ?_, ?_, ?_, ?_⟩
  · intro r rs m hc
    simp [plp_reads, hc]
  · intro r rs m m' hc hp
    have hc' : ¬ check_read r conf < 0 := by omega
    simp [plp_reads, hc', hp]
  · intro r rs m m' ret hc hp hlt hne
    have hc' : ¬ check_read r conf < 0 := by omega
    simp [plp_reads, hc', hp, hlt, hne]
  · intro snp sam_list mcnt m' ha hs
    simp [plp_snp, ha, hs]
  · intro sam_list snp snps sm fm h
    simp [fc_fet1_loop, h]
  · intro sam_list snp snps sm fm h
    exact fc_fet1_loop_skip Ms Mf sam_list conf snp snps sm fm h
  · intro sam_list reg idx st hsnp hret
    cases hstep : fc_features_step Ms Mf sam_list conf reg idx st with
    | error st' => exact ⟨st', rfl⟩
    | ok st' =>
      exfalso
      simp [fc_features_step, hsnp, hret] at hstep
  · intro sam_list regs reg idx st st' hstep
    simp [fc_features_loop, hstep]

/-- Witness for C6: with a machine whose `push_read` reports -1 on the
concrete qualifying read, the read loop aborts fatally. -/
theorem error_severity_routing_witness :
    plp_reads fatalSnpM conf0 (some "S1") [read0] () = Except.error () :=
  (error_severity_routing fatalSnpM (trivFeatM [("S1", ⟨6, 4, 0, 0⟩)]) conf0
    (some "S1")).2.1 read0 [] () () (by decide) (by decide)

section DepthIdentity

theorem SCount.add_zero (x : SCount) : x.add SCount.zero = x := by
  cases x
  simp [SCount.add, SCount.zero]

theorem SCount.zero_add (x : SCount) : SCount.zero.add x = x := by
  cases x
  simp [SCount.add, SCount.zero]

theorem SCount.add_assoc (x y z : SCount) :
    (x.add y).add z = x.add (y.add z) := by
  simp [SCount.add, Nat.add_assoc]

theorem tallySum_cons (x : SCount) (l : List SCount) :
    tallySum (x :: l) = x.add (tallySum l) := rfl

theorem fc_fet1_loop_error_neg {σ τ : Type} (Ms : SnpMachine σ)
    (Mf : FeatMachine τ σ) (sam_list : List Sam) (conf : Config) :
    ∀ (snps : List SNP) (sm : σ) (fm : τ) (e : Int),
      fc_fet1_loop Ms Mf sam_list conf snps sm fm = Except.error e → e < 0
  | [], sm, fm, e, h => by cases h
  | snp :: snps, sm, fm, e, h => by
    simp only [fc_fet1_loop] at h
    split at h
    · injection h with h'
      omega
    · split at h
      · exact fc_fet1_loop_error_neg Ms Mf sam_list conf snps _ _ e h
      · split at h
        · injection h with h'
          omega
        · exact fc_fet1_loop_error_neg Ms Mf sam_list conf snps _ _ e h

theorem fc_fet1_loop_specAgg {σ : Type} (Ms : SnpMachine σ)
    (u : σ → String → SCount) (samples : List String) (sam_list : List Sam)
    (conf : Config) :
    ∀ (snps : List SNP) (sm : σ) (fm : String → SCount) (sm' : σ)
      (fm' : String → SCount),
      fc_fet1_loop Ms (specFeatAgg u samples) sam_list conf snps sm fm =
        Except.ok (sm', fm') →
      ∀ smp, fm' smp = (fm smp).add (tallySum
        ((accepted_tallies Ms sam_list conf snps sm).map (fun t => u t smp)))
  | [], sm, fm, sm', fm', h => by
    cases h
    intro smp
    simp [accepted_tallies, tallySum, SCount.add_zero]
  | snp :: snps, sm, fm, sm', fm', h => by
    intro smp
    simp only [fc_fet1_loop] at h
    rcases lt_trichotomy (plp_snp Ms snp sam_list sm conf).1 0 with
      hlt | heq | hgt
    · rw [if_pos hlt] at h
      cases h
    · rw [if_neg (by omega), if_neg (by omega)] at h
      dsimp only [specFeatAgg] at h
      rw [if_neg (by omega)] at h
      have ih := fc_fet1_loop_specAgg Ms u samples sam_list conf snps
        (plp_snp Ms snp sam_list sm conf).2
        (fun s => (fm s).add (u (plp_snp Ms snp sam_list sm conf).2 s))
        sm' fm' h smp
      rw [ih, SCount.add_assoc]
      simp [accepted_tallies, heq, tallySum_cons]
    · rw [if_neg (by omega), if_pos hgt] at h
      have ih := fc_fet1_loop_specAgg Ms u samples sam_list conf snps
        (plp_snp Ms snp sam_list sm conf).2 fm sm' fm' h smp
      rw [ih]
      have hne : (plp_snp Ms snp sam_list sm conf).1 ≠ 0 := by omega
      simp [accepted_tallies, hne, hgt]

theorem fc_fet1_fold_map_apply (ndh : Bool) (fm : String → SCount) :
    ∀ (samples : List String) (a0 d0 o0 : String → Nat) (smp : String),
      ((fc_fet1_fold ndh (samples.map (fun s => (s, fm s)))
          (a0, d0, o0)).1 smp =
        if smp ∈ samples then
          (fm smp).alt_cnt + (if ndh then 0 else (fm smp).dup_cnt)
        else a0 smp) ∧
      ((fc_fet1_fold ndh (samples.map (fun s => (s, fm s)))
          (a0, d0, o0)).2.1 smp =
        if smp ∈ samples then
          (fm smp).ref_cnt + (fm smp).alt_cnt +
            (if ndh then 0 else (fm smp).dup_cnt * 2)
        else d0 smp) ∧
      ((fc_fet1_fold ndh (samples.map (fun s => (s, fm s)))
          (a0, d0, o0)).2.2 smp =
        if smp ∈ samples then (fm smp).oth_cnt else o0 smp)
  | [], a0, d0, o0, smp => by simp [fc_fet1_fold]
  | s :: rest, a0, d0, o0, smp => by
    have ih := fc_fet1_fold_map_apply ndh fm rest
      (upd a0 s ((fm s).allele_cnt 1 +
        (if ndh then 0 else (fm s).allele_cnt 2)))
      (upd d0 s ((fm s).allele_cnt 0 + (fm s).allele_cnt 1 +
        (if ndh then 0 else (fm s).allele_cnt 2 * 2)))
      (upd o0 s ((fm s).allele_cnt (-1))) smp
    obtain ⟨ih1, ih2, ih3⟩ := ih
    simp only [List.map_cons, fc_fet1_fold]
    refine ⟨?_, ?_, ?_⟩ <;>
      [rw [ih1]; rw [ih2]; rw [ih3]] <;>
      by_cases hmem : smp ∈ rest <;>
      simp only [hmem, if_pos, if_true, List.mem_cons, or_true, if_false] <;>
      by_cases heq : smp = s <;>
      simp [upd, heq, hmem, SCount.allele_cnt]

end DepthIdentity

/-- C1: with the FeatureAggregator modelled from the spec, a successful
`fc_fet1` run over a region emits, for every configured sample, exactly
alt_count = alternative-supporting total (plus the duplicate-haplotype
total when duplicate-haplotype counting is not disabled), dp_count =
reference-supporting plus alternative-supporting totals (plus 2 times
the duplicate-haplotype total when enabled), and oth_count = the
other-base-supporting total, where the totals are summed over exactly
the QC-accepted SNPs of the region in order. -/
theorem fc_fet1_depth_identity {σ : Type} (Ms : SnpMachine σ)
    (u : σ → String → SCount) (sam_list : List Sam) (conf : Config)
    (reg : Region) (sm : σ) (smp : String) (hs : smp ∈ conf.samples)
    (hret : (fc_fet1 Ms (specFeatAgg u conf.samples) reg sam_list sm
      (fun _ => SCount.zero) conf).ret = 0) :
    (fc_fet1 Ms (specFeatAgg u conf.samples) reg sam_list sm
        (fun _ => SCount.zero) conf).alt_at smp =
      some ((tallySum ((accepted_tallies Ms sam_list conf reg.snp_list
          sm).map (fun t => u t smp))).alt_cnt +
        (if conf.no_dup_hap then 0 else
          (tallySum ((accepted_tallies Ms sam_list conf reg.snp_list
            sm).map (fun t => u t smp))).dup_cnt)) ∧
    (fc_fet1 Ms (specFeatAgg u conf.samples) reg sam_list sm
        (fun _ => SCount.zero) conf).dp_at smp =
      some ((tallySum ((accepted_tallies Ms sam_list conf reg.snp_list
          sm).map (fun t => u t smp))).ref_cnt +
        (tallySum ((accepted_tallies Ms sam_list conf reg.snp_list
          sm).map (fun t => u t smp))).alt_cnt +
        (if conf.no_dup_hap then 0 else
          (tallySum ((accepted_tallies Ms sam_list conf reg.snp_list
            sm).map (fun t => u t smp))).dup_cnt * 2)) ∧
    (fc_fet1 Ms (specFeatAgg u conf.samples) reg sam_list sm
        (fun _ => SCount.zero) conf).oth_at smp =
      some (tallySum ((accepted_tallies Ms sam_list conf reg.snp_list
        sm).map (fun t => u t smp))).oth_cnt := by
  unfold fc_fet1 at *
  revert hret
  cases hl : fc_fet1_loop Ms (specFeatAgg u conf.samples) sam_list conf
      reg.snp_list sm (fun _ => SCount.zero) with
  | error e =>
    intro hret
    dsimp only at hret
    have := fc_fet1_loop_error_neg Ms (specFeatAgg u conf.samples) sam_list
      conf reg.snp_list sm (fun _ => SCount.zero) e hl
    omega
  | ok p =>
    obtain ⟨sm', fm'⟩ := p
    intro _
    have hacc := fc_fet1_loop_specAgg Ms u conf.samples sam_list conf
      reg.snp_list sm (fun _ => SCount.zero) sm' fm' hl smp
    rw [SCount.zero_add] at hacc
    have hfold := fc_fet1_fold_map_apply conf.no_dup_hap fm' conf.samples
      (fun _ => 0) (fun _ => 0) (fun _ => 0) smp
    obtain ⟨hf1, hf2, hf3⟩ := hfold
    rw [if_pos hs] at hf1 hf2 hf3
    simp only [specFeatAgg, Fet1Res.alt_at, Fet1Res.dp_at, Fet1Res.oth_at,
      show ¬ ((0 : Int) < 0) from by omega, if_false, Option.map_some']
    rw [hf1, hf2, hf3, hacc]
    exact ⟨rfl, rfl, rfl⟩

/-- Witness for C1: the concrete accepted SNP of `reg1` with per-unit
tallies 6 ref / 4 alt under the spec-modelled aggregator yields
alt_count 4, dp_count 10, oth_count 0 for sample "S1". -/
theorem fc_fet1_depth_identity_witness :
    (fc_fet1 (trivSnpM [6, 4]) (specFeatAgg u64 conf0.samples) reg1 [] ()
        (fun _ => SCount.zero) conf0).alt_at "S1" = some 4 ∧
    (fc_fet1 (trivSnpM [6, 4]) (specFeatAgg u64 conf0.samples) reg1 [] ()
        (fun _ => SCount.zero) conf0).dp_at "S1" = some 10 ∧
    (fc_fet1 (trivSnpM [6, 4]) (specFeatAgg u64 conf0.samples) reg1 [] ()
        (fun _ => SCount.zero) conf0).oth_at "S1" = some 0 := by
  have h := fc_fet1_depth_identity (trivSnpM [6, 4]) u64 [] conf0 reg1 ()
    "S1" (by decide) (by decide)
  exact ⟨h.1.trans (by decide), h.2.1.trans (by decide),
    h.2.2.trans (by decide)⟩

section Invariants

theorem fc_fet1_fold_alt_le_dp (ndh : Bool) :
    ∀ (cc : List (String × SCount)) (a0 d0 o0 : String → Nat),
      (∀ s, a0 s ≤ d0 s) →
      ∀ smp, (fc_fet1_fold ndh cc (a0, d0, o0)).1 smp ≤
        (fc_fet1_fold ndh cc (a0, d0, o0)).2.1 smp
  | [], a0, d0, o0, hle, smp => hle smp
  | (s, scnt) :: rest, a0, d0, o0, hle, smp => by
    simp only [fc_fet1_fold]
    apply fc_fet1_fold_alt_le_dp ndh rest
    intro t
    simp only [upd]
    by_cases ht : t = s
    · rw [if_pos ht, if_pos ht]
      cases ndh <;> simp [SCount.allele_cnt] <;> omega
    · rw [if_neg ht, if_neg ht]
      exact hle t

theorem fc_fet1_alt_le_dp {σ τ : Type} (Ms : SnpMachine σ)
    (Mf : FeatMachine τ σ) (reg : Region) (sam_list : List Sam) (sm : σ)
    (fm : τ) (conf : Config) (smp : String) (v w : Nat)
    (hv : (fc_fet1 Ms Mf reg sam_list sm fm conf).alt_at smp = some v)
    (hw : (fc_fet1 Ms Mf reg sam_list sm fm conf).dp_at smp = some w) :
    v ≤ w := by
  unfold fc_fet1 at hv hw
  revert hv hw
  cases hl : fc_fet1_loop Ms Mf sam_list conf reg.snp_list sm fm with
  | error e =>
    intro hv hw
    simp [Fet1Res.alt_at] at hv
  | ok p =>
    obtain ⟨sm', fm'⟩ := p
    by_cases hst : (Mf.stat fm').1 < 0
    · intro hv hw
      dsimp only at hv
      rw [if_pos hst] at hv
      simp [Fet1Res.alt_at] at hv
    · intro hv hw
      dsimp only at hv hw
      rw [if_neg hst] at hv hw
      simp only [Fet1Res.alt_at, Fet1Res.dp_at, Option.map_some'] at hv hw
      injection hv with hv'
      injection hw with hw'
      rw [← hv', ← hw']
      exact fc_fet1_fold_alt_le_dp conf.no_dup_hap
        (Mf.cell_cnt (Mf.stat fm').2) (fun _ => 0) (fun _ => 0) (fun _ => 0)
        (fun _ => le_refl 0) smp

theorem emit_ad_mem_imp_dp (reg_idx : Nat) (a d o : String → Nat)
    (hle : ∀ s, a s ≤ d s) :
    ∀ (samples : List String) (i : Nat) (ri si v : Nat),
      (ri, si, v) ∈ (emit_lines reg_idx a d o i samples).1 →
      ∃ w, (ri, si, w) ∈ (emit_lines reg_idx a d o i samples).2.1 ∧ v ≤ w
  | [], i, ri, si, v, h => by simp [emit_lines] at h
  | smp :: rest, i, ri, si, v, h => by
    simp only [emit_lines] at h ⊢
    by_cases h0 : d smp + o smp ≤ 0
    · rw [if_pos h0] at h
      rw [if_pos h0]
      exact emit_ad_mem_imp_dp reg_idx a d o hle rest (i + 1) ri si v h
    · rw [if_neg h0] at h
      rw [if_neg h0]
      dsimp only at h ⊢
      rcases List.mem_append.mp h with hh | ht
      · by_cases ha : 0 < a smp
        · rw [if_pos ha] at hh
          simp only [List.mem_singleton, Prod.mk.injEq] at hh
          obtain ⟨h1, h2, h3⟩ := hh
          have hd : 0 < d smp := lt_of_lt_of_le (h3 ▸ ha) (hle smp)
          refine ⟨d smp, ?_, ?_⟩
          · apply List.mem_append.mpr
            left
            rw [if_pos hd]
            simp [h1, h2]
          · rw [h3]
            exact hle smp
        · rw [if_neg ha] at hh
          simp at hh
      · obtain ⟨w, hw, hvw⟩ :=
          emit_ad_mem_imp_dp reg_idx a d o hle rest (i + 1) ri si v ht
        exact ⟨w, List.mem_append.mpr (Or.inr hw), hvw⟩

/-- The counter bookkeeping invariant: each per-worker record counter
equals the number of records on the corresponding stream. -/
def counter_inv {σ τ : Type} (st : WorkerState σ τ) : Prop :=
  st.nr_ad = st.ad_stream.length ∧ st.nr_dp = st.dp_stream.length ∧
    st.nr_oth = st.oth_stream.length

theorem fc_features_step_counter_inv {σ τ : Type} (Ms : SnpMachine σ)
    (Mf : FeatMachine τ σ) (sam_list : List Sam) (conf : Config)
    (reg : Region) (idx : Nat) (st : WorkerState σ τ)
    (hinv : counter_inv st) :
    (∀ st', fc_features_step Ms Mf sam_list conf reg idx st =
      Except.ok st' → counter_inv st') ∧
    (∀ st', fc_features_step Ms Mf sam_list conf reg idx st =
      Except.error st' → counter_inv st') := by
  obtain ⟨i1, i2, i3⟩ := hinv
  constructor
  · intro st' h
    simp only [fc_features_step] at h
    split at h
    · cases h
      exact ⟨i1, i2, i3⟩
    · split at h
      · cases h
      · split at h
        · cases h
          exact ⟨i1, i2, i3⟩
        · rename_i ca cd co hcnt
          split at h
          · cases h
            refine ⟨?_, ?_, ?_⟩ <;>
              simp [List.length_append, i1, i2, i3]
          · rename_i hg
            cases h
            push_neg at hg
            obtain ⟨hgd, hgo⟩ := hg
            have hga : (emit_lines idx ca cd co 0 conf.samples).1 = [] := by
              by_contra hne
              rcases emit_ad_ne_nil_imp idx ca cd co conf.samples 0 hne with
                hx | hx
              · exact hx hgd
              · exact hx hgo
            refine ⟨?_, ?_, ?_⟩ <;>
              simp [hga, hgd, hgo, i1, i2, i3]
  · intro st' h
    obtain ⟨e1, e2, e3, e4, e5, e6⟩ :=
      fc_features_step_error_frame Ms Mf sam_list conf reg idx st st' h
    exact ⟨e4.trans (i1.trans (congrArg List.length e1.symm)),
      e5.trans (i2.trans (congrArg List.length e2.symm)),
      e6.trans (i3.trans (congrArg List.length e3.symm))⟩

theorem fc_features_loop_counter_inv {σ τ : Type} (Ms : SnpMachine σ)
    (Mf : FeatMachine τ σ) (sam_list : List Sam) (conf : Config) :
    ∀ (regs : List Region) (idx : Nat) (st st' : WorkerState σ τ),
      counter_inv st →
      (fc_features_loop Ms Mf sam_list conf regs idx st = Except.ok st' ∨
        fc_features_loop Ms Mf sam_list conf regs idx st =
          Except.error st') →
      counter_inv st'
  | [], idx, st, st', hinv, h => by
    rcases h with h | h
    · cases h
      exact hinv
    · cases h
  | reg :: regs, idx, st, st', hinv, h => by
    have hstep := fc_features_step_counter_inv Ms Mf sam_list conf reg idx
      st hinv
    rcases h with h | h
    · simp only [fc_features_loop] at h
      revert h
      cases hs : fc_features_step Ms Mf sam_list conf reg idx st with
      | error st1 =>
        intro h
        dsimp only at h
        cases h
      | ok st1 =>
        intro h
        dsimp only at h
        exact fc_features_loop_counter_inv Ms Mf sam_list conf regs
          (idx + 1) st1 st' (hstep.1 st1 hs) (Or.inl h)
    · simp only [fc_features_loop] at h
      revert h
      cases hs : fc_features_step Ms Mf sam_list conf reg idx st with
      | error st1 =>
        intro h
        dsimp only at h
        injection h with h'
        subst h'
        exact hstep.2 st1 hs
      | ok st1 =>
        intro h
        dsimp only at h
        exact fc_features_loop_counter_inv Ms Mf sam_list conf regs
          (idx + 1) st1 st' (hstep.1 st1 hs) (Or.inr h)

end Invariants

/-- C10: with non-negative per-unit allele counters (naturals), the
counts `fc_fet1` emits satisfy alt_count <= dp_count for every sample,
with and without duplicate-haplotype counting; an AD record for a
(region, sample) pair is emitted only when a DP record for the same pair
is (with a value at least as large); and after a worker run (completed
or aborted) the record counters nr_ad, nr_dp, nr_oth equal exactly the
number of records written to the AD, DP and OTH streams (no record is
counted but suppressed by the region-level write guard). -/
theorem emitted_counts_invariants :
    (∀ (σ τ : Type) (Ms : SnpMachine σ) (Mf : FeatMachine τ σ)
        (reg : Region) (sam_list : List Sam) (sm : σ) (fm : τ)
        (conf : Config) (smp : String) (v w : Nat),
      (fc_fet1 Ms Mf reg sam_list sm fm conf).alt_at smp = some v →
      (fc_fet1 Ms Mf reg sam_list sm fm conf).dp_at smp = some w →
      v ≤ w) ∧
    (∀ (reg_idx : Nat) (a d o : String → Nat), (∀ s, a s ≤ d s) →
      ∀ (samples : List String) (i ri si v : Nat),
        (ri, si, v) ∈ (emit_lines reg_idx a d o i samples).1 →
        ∃ w, (ri, si, w) ∈ (emit_lines reg_idx a d o i samples).2.1 ∧
          v ≤ w) ∧
    (∀ (σ τ : Type) (Ms : SnpMachine σ) (Mf : FeatMachine τ σ)
        (sam_list : List Sam) (conf : Config) (regs : List Region)
        (sm : σ) (fm : τ) (st' : WorkerState σ τ),
      (fc_features Ms Mf sam_list conf regs sm fm = Except.ok st' ∨
        fc_features Ms Mf sam_list conf regs sm fm = Except.error st') →
      st'.nr_ad = st'.ad_stream.length ∧
        st'.nr_dp = st'.dp_stream.length ∧
        st'.nr_oth = st'.oth_stream.length) :=
  ⟨fun _ _ Ms Mf reg sam_list sm fm conf smp v w hv hw =>
      fc_fet1_alt_le_dp Ms Mf reg sam_list sm fm conf smp v w hv hw,
    fun reg_idx a d o hle samples i ri si v h =>
      emit_ad_mem_imp_dp reg_idx a d o hle samples i ri si v h,
    fun _ _ Ms Mf sam_list conf regs sm fm st' h =>
      fc_features_loop_counter_inv Ms Mf sam_list conf regs 0
        (init_state sm fm) st' ⟨rfl, rfl, rfl⟩ h⟩

/-- Witness for C10: the concrete region of `reg1` emits alt 4 and dp 10
for sample "S1", and the theorem yields 4 <= 10. -/
theorem emitted_counts_invariants_witness :
    (fc_fet1 (trivSnpM [6, 4]) (trivFeatM [("S1", ⟨6, 4, 0, 0⟩)]) reg1 []
        () () conf0).alt_at "S1" = some 4 ∧
    (fc_fet1 (trivSnpM [6, 4]) (trivFeatM [("S1", ⟨6, 4, 0, 0⟩)]) reg1 []
        () () conf0).dp_at "S1" = some 10 ∧
    (4 : Nat) ≤ 10 :=
  ⟨by decide, by decide,
    emitted_counts_invariants.1 Unit Unit (trivSnpM [6, 4])
      (trivFeatM [("S1", ⟨6, 4, 0, 0⟩)]) reg1 [] () () conf0 "S1" 4 10
      (by decide) (by decide)⟩

end AFC
